import Mathlib

/-!
Verification of the kml2csv repository (src/kml_parser.py and src/kml_to_csv.py)
against its natural-language specification.

The Python code is shallowly embedded as follows.

String primitives: Python str methods (.strip(), .split(','), .lower(),
.endswith(...), string comparison) are modelled by executable functions over
the character list underlying a Lean String (pyStrip, pySplitComma, pyLower,
pyEndsWith, strLeR).  Python's ordered dict with last-write-wins assignment
is modelled by an association list (dictInsert / dictGet / dictUpdate).

HTML parsing: html.parser.HTMLParser tokenizes its input and dispatches
handle_starttag / handle_endtag / handle_data callbacks; the tokenizer is
modelled by a list of HtmlEvent values (the empty string tokenizes to the
empty list), and the two HTMLParser subclasses of kml_parser.py become folds
of their callback logic over that event list.  xml.etree.ElementTree element
trees are modelled by the XNode inductive; the outcome of ET.fromstring on a
wrapped description fragment (a tree, or ET.ParseError) is carried explicitly
as an Option XNode.

Placemark elements: a KML Placemark is modelled by the texts of the child
elements the code queries.  A field of type Option (Option String) encodes
first whether the child element exists, then its .text attribute (which
ElementTree reports as None or a string).
-/

set_option autoImplicit false

/-- Models the character class stripped by Python str.strip(): the ASCII
whitespace characters (unicode whitespace beyond ASCII is not modelled). -/
def isPySpace (c : Char) : Bool :=
  c = ' ' || c = '\t' || c = '\n' || c = '\r' || c = '\x0b' || c = '\x0c'

/-- Strips leading and trailing whitespace from a character list. -/
def stripChars (cs : List Char) : List Char :=
  ((cs.dropWhile isPySpace).reverse.dropWhile isPySpace).reverse

/-- Models Python str.strip(). -/
def pyStrip (s : String) : String := ⟨stripChars s.data⟩

/-- Models Python str.split(',') on a character list: splitting on every comma,
never returning an empty list (the empty input yields one empty group). -/
def splitCommaChars : List Char → List (List Char)
  | [] => [[]]
  | c :: rest =>
    match splitCommaChars rest with
    | [] => [[]]
    | g :: gs => if c = ',' then [] :: g :: gs else (c :: g) :: gs

/-- Models Python str.split(','). -/
def pySplitComma (s : String) : List String :=
  (splitCommaChars s.data).map (fun g => ⟨g⟩)

/-- Models Python str.endswith(suffix). -/
def pyEndsWith (s suffix : String) : Bool :=
  suffix.data.isSuffixOf s.data

/-- Models Python str.lower() on one ASCII character. -/
def lowerChar (c : Char) : Char :=
  if 65 ≤ c.toNat ∧ c.toNat ≤ 90 then Char.ofNat (c.toNat + 32) else c

/-- Models Python str.lower(). -/
def pyLower (s : String) : String := ⟨s.data.map lowerChar⟩

/-- Lexicographic strict order on character lists by code point, as Python
compares strings. -/
def strLtChars : List Char → List Char → Bool
  | [], [] => false
  | [], _ :: _ => true
  | _ :: _, [] => false
  | a :: as, b :: bs =>
    if a.toNat < b.toNat then true
    else if b.toNat < a.toNat then false
    else strLtChars as bs

/-- Boolean string comparison: less-than-or-equal by code-point lexicographic
order, as Python compares strings. -/
def strLeB (s t : String) : Bool := strLtChars s.data t.data || s.data == t.data

/-- The order used by the model of Python sorted(...). -/
def strLeR (s t : String) : Prop := strLeB s t = true

instance : DecidableRel strLeR := fun s t => by unfold strLeR; infer_instance

/-- Models Python sorted(...) on strings: an insertion sort by code-point
lexicographic order (any correct ascending sort of distinct strings produces
this list). -/
def pySorted (l : List String) : List String := List.insertionSort strLeR l

/-- Models Python dict assignment d[key] = value: if the key is present its
value is replaced in place (keeping the key's original position), otherwise
the pair is appended at the end, as insertion-ordered Python dicts do. -/
def dictInsert : List (String × String) → String → String → List (String × String)
  | [], k, v => [(k, v)]
  | (k', v') :: rest, k, v =>
    if k' = k then (k, v) :: rest else (k', v') :: dictInsert rest k v

/-- Models Python dict.get(key, '') (and csv.DictWriter's restval-filled
cell lookup). -/
def dictGet (d : List (String × String)) (k : String) : String :=
  match d.find? (fun kv => kv.1 == k) with
  | some kv => kv.2
  | none => ""

/-- Models Python dict.update(other): assigns every pair of the second dict
into the first, in order. -/
def dictUpdate (d other : List (String × String)) : List (String × String) :=
  other.foldl (fun acc kv => dictInsert acc kv.1 kv.2) d

/-- Event stream delivered by html.parser.HTMLParser to its subclass:
a start tag, an end tag, or a run of character data. -/
inductive HtmlEvent where
  | startTag (tag : String)
  | endTag (tag : String)
  | chunk (s : String)
deriving DecidableEq

/-- Python truthiness of an optional string: None and the empty string are
falsy. -/
def pyFalsyStr : Option String → Bool
  | none => true
  | some s => s = ""

/-- State of kml_parser.TableHTMLParser: the in_td flag, the current row's
accumulated td data chunks, and the result dict. -/
structure TableState where
  in_td : Bool
  current_row : List String
  data : List (String × String)

/-- One HTMLParser callback of kml_parser.TableHTMLParser: handle_starttag
sets in_td on a td tag; handle_endtag clears it on td and, on tr, flushes the
accumulated row (an entry is recorded only when exactly two chunks were
accumulated and the first strips nonempty); handle_data appends the chunk to
the current row while in_td holds. -/
def tableStep (st : TableState) (e : HtmlEvent) : TableState :=
  match e with
  | .startTag tag =>
    if pyLower tag = "td" then { st with in_td := true } else st
  | .endTag tag =>
    if pyLower tag = "td" then { st with in_td := false }
    else if pyLower tag = "tr" then
      match st.current_row with
      | [c0, c1] =>
        let key := pyStrip c0
        let value := pyStrip c1
        { in_td := st.in_td, current_row := [],
          data := if key = "" then st.data else dictInsert st.data key value }
      | _ => { st with current_row := [] }
    else st
  | .chunk s =>
    if st.in_td then { st with current_row := st.current_row ++ [s] } else st

/-- Runs kml_parser.TableHTMLParser over an event stream and returns its
data dict. -/
def tableRun (events : List HtmlEvent) : List (String × String) :=
  (events.foldl tableStep ⟨false, [], []⟩).data

/-- State of kml_parser.H1HTMLParser: the in_h1 flag and the text field
(initially None). -/
structure H1State where
  in_h1 : Bool
  text : Option String

/-- One HTMLParser callback of kml_parser.H1HTMLParser: handle_starttag and
handle_endtag toggle in_h1 on h1 tags; handle_data stores the stripped chunk
whenever in_h1 holds and the stored text is still falsy (None or empty). -/
def h1Step (st : H1State) (e : HtmlEvent) : H1State :=
  match e with
  | .startTag tag =>
    if pyLower tag = "h1" then { st with in_h1 := true } else st
  | .endTag tag =>
    if pyLower tag = "h1" then { st with in_h1 := false } else st
  | .chunk s =>
    if st.in_h1 && pyFalsyStr st.text then { st with text := some (pyStrip s) } else st

/-- Runs kml_parser.H1HTMLParser over an event stream and returns its text
field. -/
def h1Run (events : List HtmlEvent) : Option String :=
  (events.foldl h1Step ⟨false, none⟩).text

/-- An xml.etree.ElementTree element: tag name, the .text attribute (None or
the text before the first child), and the child elements in document order. -/
inductive XNode where
  | elem (tag : String) (text : Option String) (children : List XNode)

/-- Tag name of an element. -/
def XNode.tagOf : XNode → String
  | .elem t _ _ => t

/-- The .text attribute of an element. -/
def XNode.textOf : XNode → Option String
  | .elem _ tx _ => tx

mutual
/-- All proper descendants of an element in document (preorder) order, as
ElementTree findall('.//...') traverses them. -/
def XNode.desc : XNode → List XNode
  | .elem _ _ cs => descForest cs

/-- Preorder listing of a forest of elements together with all their
descendants. -/
def descForest : List XNode → List XNode
  | [] => []
  | c :: rest => c :: (XNode.desc c ++ descForest rest)
end

/-- Models ElementTree element.findall('.//tag'): all descendants with the
given tag, in document order. -/
def findallDesc (tag : String) (n : XNode) : List XNode :=
  n.desc.filter (fun m => m.tagOf == tag)

/-- One row of kml_to_csv.parse_html_description: the row is used only when
row.findall('.//td') yields exactly two cells; the key and value are the
stripped .text of the two cells (empty when .text is falsy); rows whose key
is empty after stripping are skipped. -/
def strictRowStep (d : List (String × String)) (row : XNode) : List (String × String) :=
  match findallDesc "td" row with
  | [c0, c1] =>
    let key := pyStrip (c0.textOf.getD "")
    let value := pyStrip (c1.textOf.getD "")
    if key = "" then d else dictInsert d key value
  | _ => d

/-- The table scan of kml_to_csv.parse_html_description over a successfully
parsed wrapped fragment: every row of every descendant table, in document
order. -/
def strictTablesOf (root : XNode) : List (String × String) :=
  (((findallDesc "table" root).map (fun t => findallDesc "tr" t)).flatten).foldl strictRowStep []

/-- A result that is either a value or an error message; errors model a
raised-and-reported Python exception (or an early return with a printed
message). -/
inductive PyResult (α : Type) where
  | ok (value : α)
  | error (msg : String)
deriving DecidableEq

/-- A KML Placemark element as the code observes it.  nameEl, coordEl and
descEl are the results of find('kml:name'), find('.//kml:coordinates') and
find('kml:description'): the outer Option is element existence, the inner one
the element's .text attribute.  descEvents is the html.parser tokenization of
the stripped description text (meaningful when that text is truthy; the empty
string tokenizes to []).  descTree is the outcome of
ET.fromstring('<div>' + stripped description + '</div>'): the wrapped element
tree, or none when that raises ET.ParseError.  Both are carried explicitly
because the embedding does not re-implement the two stdlib parsers. -/
structure Placemark where
  nameEl : Option (Option String)
  coordEl : Option (Option String)
  descEl : Option (Option String)
  descEvents : List HtmlEvent
  descTree : Option XNode

/-- Models the idiom (element.text.strip() if element is not None and
element.text else ''): the stripped text when the element exists and its text
is truthy, the empty string otherwise. -/
def elText : Option (Option String) → String
  | some (some t) => if t = "" then "" else pyStrip t
  | _ => ""

/-- The event stream the description text feeds to an HTMLParser: the
tokenization of the stripped text when the description element exists and its
text is truthy, and the empty stream otherwise. -/
def descHtmlEvents (pm : Placemark) : List HtmlEvent :=
  match pm.descEl with
  | some (some t) => if t = "" then [] else pm.descEvents
  | _ => []

/-- Models the archive scan shared by both modules: iterate the zip entry
list, pick the first entry name ending in '.kml', fail when none (or a falsy
name) is found, and return that entry's content via read-by-name. -/
def loadKml {α : Type} (entries : List (String × α)) : PyResult α :=
  match (entries.map Prod.fst).find? (fun n => pyEndsWith n ".kml") with
  | none => .error "No .kml file found"
  | some n =>
    if n = "" then .error "No .kml file found"
    else
      match entries.find? (fun e => e.1 == n) with
      | some e => .ok e.2
      | none => .error "KeyError"

namespace KmlParserPy

/-- Extracted placemark record of kml_parser.extract_placemark_data. -/
structure PlacemarkData where
  name : String
  longitude : String
  latitude : String
  altitude : String
  extra : List (String × String)

/-- Module constant kml_parser.NO_FORM, the sentinel group label. -/
def NO_FORM : String := "__NO_FORM__"

/-- kml_parser.parse_html_description: feeds (html_string or '') to a fresh
TableHTMLParser and returns its data dict.  The argument is the tokenization
of the input, none standing for a None argument (which feeds the empty
string). -/
def parse_html_description (html : Option (List HtmlEvent)) : List (String × String) :=
  tableRun (html.getD [])

/-- kml_parser.get_form_name: feeds (html_string or '') to a fresh
H1HTMLParser and returns its text field (None when no h1 text was seen). -/
def get_form_name (html : Option (List HtmlEvent)) : Option String :=
  h1Run (html.getD [])

/-- Coordinate assignment of kml_parser.extract_placemark_data: when the
coordinates element exists with truthy text, the stripped text is split on
commas and the tokens are assigned only when the split yields exactly 3, 2 or
1 tokens; any other length leaves every slot empty. -/
def coordTriple (coordEl : Option (Option String)) : String × String × String :=
  match coordEl with
  | some (some t) =>
    if t = "" then ("", "", "")
    else
      match pySplitComma (pyStrip t) with
      | [c0, c1, c2] => (c0, c1, c2)
      | [c0, c1] => (c0, c1, "")
      | [c0] => (c0, "", "")
      | _ => ("", "", "")
  | _ => ("", "", "")

/-- kml_parser.extract_placemark_data: name from the stripped name text,
coordinates split positionally, and extra from parse_html_description applied
to the stripped description text (empty when the description is missing or
falsy). -/
def extract_placemark_data (pm : Placemark) : PlacemarkData :=
  let c := coordTriple pm.coordEl
  { name := elText pm.nameEl
    longitude := c.1
    latitude := c.2.1
    altitude := c.2.2
    extra := tableRun (descHtmlEvents pm) }

/-- The group label of one placemark in kml_parser.group_placemarks_by_form:
get_form_name(desc_html) or NO_FORM, where Python's or replaces a falsy
result (None or '') by the sentinel. -/
def formNameOf (pm : Placemark) : String :=
  match get_form_name (some (descHtmlEvents pm)) with
  | some s => if s = "" then NO_FORM else s
  | none => NO_FORM

/-- Models forms[form_name].append(pm) after (if form_name not in forms:
forms[form_name] = []): appends to an existing group in place, or adds a new
group at the end of the insertion-ordered dict. -/
def addToForm : List (String × List Placemark) → String → Placemark → List (String × List Placemark)
  | [], k, pm => [(k, [pm])]
  | (k', l) :: rest, k, pm =>
    if k' = k then (k', l ++ [pm]) :: rest else (k', l) :: addToForm rest k pm

/-- One iteration of the grouping loop of kml_parser.group_placemarks_by_form:
the placemark is appended to the group named by its form name (the if
form_name guard mirrors the source's truthiness check). -/
def groupStep (forms : List (String × List Placemark)) (pm : Placemark) :
    List (String × List Placemark) :=
  let fn := formNameOf pm
  if fn = "" then forms else addToForm forms fn pm

/-- Grouping loop of kml_parser.group_placemarks_by_form over the placemark
list of the parsed document. -/
def group_placemarks_by_form (pms : List Placemark) : List (String × List Placemark) :=
  pms.foldl groupStep []

/-- kml_parser.group_placemarks_by_form from the archive: load the first .kml
entry (raising ValueError when absent) and group its placemarks; an archive
entry's parsed placemark list stands for its bytes, XML parsing being
deterministic. -/
def group_placemarks_by_form_archive (entries : List (String × List Placemark)) :
    PyResult (List (String × List Placemark)) :=
  match loadKml entries with
  | .error m => .error m
  | .ok pms => .ok (group_placemarks_by_form pms)

/-- Lookup of one group in the insertion-ordered forms dict ([] when the
label is absent). -/
def formsLookup (forms : List (String × List Placemark)) (k : String) : List Placemark :=
  match forms.find? (fun g => g.1 == k) with
  | some g => g.2
  | none => []

end KmlParserPy

namespace KmlToCsvPy

/-- kml_to_csv.parse_html_description: returns the empty dict on falsy input
(None or ''); otherwise wraps the fragment in a div and parses it with
ET.fromstring, returning the empty dict when that raises ET.ParseError, and
otherwise scanning every descendant table.  The parse outcome is passed
explicitly (see Placemark.descTree). -/
def parse_html_description (html_string : Option String) (parsed : Option XNode) :
    List (String × String) :=
  match html_string with
  | none => []
  | some s =>
    if s = "" then []
    else
      match parsed with
      | none => []
      | some root => strictTablesOf root

/-- The strict-parse description data of one placemark as the CSV row loop
computes it (kml_to_csv lines 107-110). -/
def descDataStrict (pm : Placemark) : List (String × String) :=
  parse_html_description (some (elText pm.descEl)) pm.descTree

/-- Coordinate assignment of the CSV row loop (kml_to_csv lines 95-105): when
the stripped coordinate text is nonempty it is split on commas and the first
up to three tokens are assigned positionally, missing positions staying
empty. -/
def coordFieldsCsv (coordEl : Option (Option String)) : String × String × String :=
  let s := elText coordEl
  if s = "" then ("", "", "")
  else
    let coords := pySplitComma s
    (coords.getD 0 "", coords.getD 1 "", coords.getD 2 "")

/-- The four fixed CSV columns (kml_to_csv line 86). -/
def fixedFieldnames : List String := ["Name", "Longitude", "Latitude", "Altitude"]

/-- One placemark's row dict (kml_to_csv lines 89-113): the four fixed keys
are inserted first, then the dict is updated with the strict-parse
description data (a description key equal to a fixed key overwrites it, as
dict.update does). -/
def placemarkRow (pm : Placemark) : List (String × String) :=
  let c := coordFieldsCsv pm.coordEl
  let base := [("Name", elText pm.nameEl), ("Longitude", c.1),
               ("Latitude", c.2.1), ("Altitude", c.2.2)]
  dictUpdate base (descDataStrict pm)

/-- csv.DictWriter serialization of one row dict under the fixed field list:
one cell per fieldname, looked up with restval '' for absent keys; keys of
the row dict outside the field list are ignored (extrasaction='ignore'). -/
def renderRow (fieldnames : List String) (row : List (String × String)) : List String :=
  fieldnames.map (fun f => dictGet row f)

/-- kml_to_csv line 83: the first selected placemark's description html.
Unlike the row loop, this expression calls .text.strip() after checking only
element existence, so a present description element whose .text is None
raises AttributeError (caught by the surrounding handler, aborting the
run). -/
def firstDescHtml (pm : Placemark) : PyResult String :=
  match pm.descEl with
  | none => .ok ""
  | some none => .error "AttributeError"
  | some (some t) => .ok (pyStrip t)

/-- Schema and serialization of the chosen group (kml_to_csv lines 82-118):
fieldnames are the four fixed columns followed by the keys of the first
record's parsed description, and every selected placemark is rendered under
that field list. -/
def exportGroup (first : Placemark) (rest : List Placemark) :
    PyResult (List String × List (List String)) :=
  match firstDescHtml first with
  | .error m => .error m
  | .ok fdh =>
    let description_keys := (parse_html_description (some fdh) first.descTree).map Prod.fst
    let fieldnames := fixedFieldnames ++ description_keys
    .ok (fieldnames, (first :: rest).map (fun pm => renderRow fieldnames (placemarkRow pm)))

/-- kml_to_csv line 56 comprehension: the raw (unstripped) name texts of the
placemarks whose name element exists with truthy text. -/
def truthyNames (pms : List Placemark) : List String :=
  pms.filterMap
    (fun pm =>
      match pm.nameEl with
      | some (some t) => if t = "" then none else some t
      | _ => none)

/-- kml_to_csv line 56: sorted(list(set(...))) over the truthy names. -/
def placemarkNamesOf (pms : List Placemark) : List String :=
  pySorted (truthyNames pms).dedup

/-- kml_to_csv line 76 predicate: the placemark's name element exists and its
raw text equals the selected name (a None text never equals a string). -/
def matchesName (pm : Placemark) (n : String) : Bool :=
  match pm.nameEl with
  | some (some t) => t == n
  | _ => false

/-- Observable I/O actions of kml_to_csv_interactive_multiple, in program
order: console prints, the blocking input prompt, opening the output file,
and writing its full content (header row then data rows). -/
inductive Effect where
  | consolePrint (msg : String)
  | promptInput
  | openOutput
  | writeOutput (lines : List (List String))
deriving DecidableEq

/-- Final outcome of a run: aborted without output, or the complete written
file content. -/
inductive RunOutcome where
  | aborted
  | wrote (header : List String) (rows : List (List String))
deriving DecidableEq

/-- kml_to_csv.kml_to_csv_interactive_multiple as a function from the archive
entry list and the user's console input to the run outcome and the ordered
trace of its I/O effects.  The user input is none when int(input(...)) raises
ValueError, and some c for the typed integer c.  Every early return and the
surrounding exception handler abort the run; the output file is opened and
written only in the final success branch. -/
def kml_to_csv_interactive_multiple (entries : List (String × List Placemark))
    (userInput : Option Int) : RunOutcome × List Effect :=
  match loadKml entries with
  | .error m => (.aborted, [.consolePrint m])
  | .ok placemarks =>
    let placemark_names := placemarkNamesOf placemarks
    if placemark_names.isEmpty then
      (.aborted, [.consolePrint "No placemarks with names found."])
    else
      let menu := Effect.consolePrint "Please choose a placemark name to process:"
        :: placemark_names.map Effect.consolePrint ++ [Effect.promptInput]
      match userInput with
      | none => (.aborted, menu ++ [.consolePrint "Invalid input."])
      | some c =>
        let choice_index := c - 1
        if 0 ≤ choice_index ∧ choice_index < (placemark_names.length : Int) then
          let selected_name := placemark_names.getD choice_index.toNat ""
          let selected := placemarks.filter (fun pm => matchesName pm selected_name)
          match selected with
          | [] => (.aborted, menu ++ [.consolePrint "No placemarks found with that name."])
          | first :: rest =>
            match exportGroup first rest with
            | .error m => (.aborted, menu ++ [.consolePrint ("An error occurred: " ++ m)])
            | .ok (fieldnames, rows) =>
              (.wrote fieldnames rows,
               menu ++ [.openOutput, .writeOutput (fieldnames :: rows),
                        .consolePrint "Conversion successful."])
        else (.aborted, menu ++ [.consolePrint "Invalid choice."])

/-- True of the effects that touch the output file. -/
def outputEffect : Effect → Bool
  | .openOutput => true
  | .writeOutput _ => true
  | _ => false

end KmlToCsvPy

/-! Specification-side definitions, stated from the specification's words so
that the embedded code can be compared against them. -/

/-- Spec-side: the token list a coordinate element offers for positional
assignment, namely the comma-split of the stripped text when that text is
truthy, and no tokens otherwise. -/
def elTokens (coordEl : Option (Option String)) : List String :=
  let s := elText coordEl
  if s = "" then [] else pySplitComma s

/-- Spec-side: assign the first up to three tokens positionally to
longitude, latitude, altitude, unassigned slots staying empty. -/
def firstThreeTokens (toks : List String) : String × String × String :=
  (toks.getD 0 "", toks.getD 1 "", toks.getD 2 "")

/-- Spec-side: the event stream of one flat table cell, a td element holding
exactly one text chunk. -/
def flatCell (s : String) : List HtmlEvent :=
  [.startTag "td", .chunk s, .endTag "td"]

/-- Spec-side: the event stream of one flat table row. -/
def flatRow (cells : List String) : List HtmlEvent :=
  .startTag "tr" :: ((cells.map flatCell).flatten ++ [.endTag "tr"])

/-- Spec-side: the event stream of a flat table whose rows hold the given
cell texts. -/
def flatTable (rows : List (List String)) : List HtmlEvent :=
  .startTag "table" :: ((rows.map flatRow).flatten ++ [.endTag "table"])

/-- Spec-side: the two-cell row rule of the specification — a row
contributes an entry exactly when it has exactly two cells and the first
cell's stripped text is nonempty, a repeated key overwriting the earlier
value. -/
def specRowStep (d : List (String × String)) (cells : List String) : List (String × String) :=
  match cells with
  | [c0, c1] => if pyStrip c0 = "" then d else dictInsert d (pyStrip c0) (pyStrip c1)
  | _ => d

/-- Spec-side: the text chunks delivered while the h1 flag is set, tracking
the flag exactly as H1HTMLParser does. -/
def h1Chunks : Bool → List HtmlEvent → List String
  | _, [] => []
  | b, .startTag t :: rest => h1Chunks (if pyLower t = "h1" then true else b) rest
  | b, .endTag t :: rest => h1Chunks (if pyLower t = "h1" then false else b) rest
  | b, .chunk s :: rest => if b then s :: h1Chunks b rest else h1Chunks b rest

/-- Spec-side: what H1HTMLParser actually computes — the stripped text of the
first in-h1 chunk whose strip is nonempty; the empty string when in-h1 chunks
exist but all strip to empty; absent when no chunk ever occurs inside an
h1. -/
def h1Spec (events : List HtmlEvent) : Option String :=
  let cs := h1Chunks false events
  match cs.find? (fun s => !(pyStrip s == "")) with
  | some s => some (pyStrip s)
  | none => if cs.isEmpty then none else some ""

/-! Concrete inputs used by counterexamples and witnesses. -/

/-- Event stream of the fragment
<table><tr><td>a<b>b</b></td></tr></table>: a single one-cell row whose cell
contains markup, so the cell's text is delivered as two chunks. -/
def ceOneCell : List HtmlEvent :=
  [.startTag "table", .startTag "tr", .startTag "td", .chunk "a", .startTag "b",
   .chunk "b", .endTag "b", .endTag "td", .endTag "tr", .endTag "table"]

/-- Event stream of the fragment <h1> </h1><h1>Second</h1>: a first heading
whose text strips to empty, followed by a second heading. -/
def ceTwoHeadings : List HtmlEvent :=
  [.startTag "h1", .chunk " ", .endTag "h1",
   .startTag "h1", .chunk "Second", .endTag "h1"]

/-- A placemark whose coordinate text splits into four tokens. -/
def pmFourTokens : Placemark :=
  { nameEl := none, coordEl := some (some "1.0,2.0,3.0,4.0"), descEl := none,
    descEvents := [], descTree := none }

/-- Element tree of the wrapped fragment
<div><table><tr><td>A</td><td>1</td></tr></table></div>. -/
def treeW : XNode :=
  .elem "div" none
    [.elem "table" none
      [.elem "tr" none
        [.elem "td" (some "A") [], .elem "td" (some "1") []]]]

/-- A fully populated placemark used by witnesses: name P1, a 3-token
coordinate tuple, and a one-row description table. -/
def pmW : Placemark :=
  { nameEl := some (some "P1")
    coordEl := some (some "1.0,2.0,3.0")
    descEl := some (some "<table><tr><td>A</td><td>1</td></tr></table>")
    descEvents := [.startTag "table", .startTag "tr", .startTag "td", .chunk "A",
                   .endTag "td", .startTag "td", .chunk "1", .endTag "td",
                   .endTag "tr", .endTag "table"]
    descTree := some treeW }

/-- A placemark with no description at all (headless). -/
def pmHeadless : Placemark :=
  { nameEl := none, coordEl := none, descEl := none, descEvents := [], descTree := none }

/-- A one-entry archive holding the single placemark pmW. -/
def archW : List (String × List Placemark) := [("doc.kml", [pmW])]

/-! Order lemmas for the string comparison underlying the sorted(...)
model. -/

theorem strLtChars_asymm : ∀ (a b : List Char),
    strLtChars a b = true → strLtChars b a = true → False
  | [], [], h, _ => by simp [strLtChars] at h
  | [], _ :: _, _, h' => by simp [strLtChars] at h'
  | _ :: _, [], h, _ => by simp [strLtChars] at h
  | a :: as, b :: bs, h, h' => by
    simp only [strLtChars] at h h'
    rcases Nat.lt_trichotomy a.toNat b.toNat with hlt | heq | hgt
    · rw [if_neg (by omega), if_pos hlt] at h'
      exact Bool.false_ne_true h'
    · rw [if_neg (by omega), if_neg (by omega)] at h
      rw [if_neg (by omega), if_neg (by omega)] at h'
      exact strLtChars_asymm as bs h h'
    · rw [if_neg (by omega), if_pos hgt] at h
      exact Bool.false_ne_true h

theorem strLtChars_trans : ∀ (a b c : List Char),
    strLtChars a b = true → strLtChars b c = true → strLtChars a c = true
  | [], [], _, h, _ => by simp [strLtChars] at h
  | [], _ :: _, [], _, h' => by simp [strLtChars] at h'
  | [], _ :: _, _ :: _, _, _ => by simp [strLtChars]
  | _ :: _, [], _, h, _ => by simp [strLtChars] at h
  | _ :: _, _ :: _, [], _, h' => by simp [strLtChars] at h'
  | a :: as, b :: bs, c :: cs, h, h' => by
    simp only [strLtChars] at h h' ⊢
    rcases Nat.lt_trichotomy a.toNat b.toNat with hab | hab | hab
    · rcases Nat.lt_trichotomy b.toNat c.toNat with hbc | hbc | hbc
      · rw [if_pos (by omega)]
      · rw [if_pos (by omega)]
      · rw [if_neg (by omega), if_pos hbc] at h'
        exact absurd h' Bool.false_ne_true
    · rcases Nat.lt_trichotomy b.toNat c.toNat with hbc | hbc | hbc
      · rw [if_pos (by omega)]
      · rw [if_neg (by omega), if_neg (by omega)] at h h' ⊢
        exact strLtChars_trans as bs cs h h'
      · rw [if_neg (by omega), if_pos hbc] at h'
        exact absurd h' Bool.false_ne_true
    · rw [if_neg (by omega), if_pos hab] at h
      exact absurd h Bool.false_ne_true

theorem charEqOfToNatEq {a b : Char} (h : a.toNat = b.toNat) : a = b :=
  Char.ext (UInt32.ext h)

theorem strLtChars_total : ∀ (a b : List Char),
    a = b ∨ strLtChars a b = true ∨ strLtChars b a = true
  | [], [] => Or.inl rfl
  | [], _ :: _ => Or.inr (Or.inl (by simp [strLtChars]))
  | _ :: _, [] => Or.inr (Or.inr (by simp [strLtChars]))
  | a :: as, b :: bs => by
    rcases Nat.lt_trichotomy a.toNat b.toNat with hab | hab | hab
    · exact Or.inr (Or.inl (by simp only [strLtChars]; rw [if_pos hab]))
    · have hch : a = b := charEqOfToNatEq hab
      rcases strLtChars_total as bs with h | h | h
      · exact Or.inl (by rw [hch, h])
      · refine Or.inr (Or.inl ?_)
        simp only [strLtChars]
        rw [if_neg (by omega), if_neg (by omega)]
        exact h
      · refine Or.inr (Or.inr ?_)
        simp only [strLtChars]
        rw [if_neg (by omega), if_neg (by omega)]
        exact h
    · exact Or.inr (Or.inr (by simp only [strLtChars]; rw [if_pos hab]))

theorem stringDataEq : ∀ {a b : String}, a.data = b.data → a = b
  | ⟨_⟩, ⟨_⟩, h => congrArg String.mk h

instance : IsTrans String strLeR :=
  ⟨by
    intro a b c hab hbc
    rcases (Bool.or_eq_true _ _).mp hab with h1 | h1
    · rcases (Bool.or_eq_true _ _).mp hbc with h2 | h2
      · exact (Bool.or_eq_true _ _).mpr
          (Or.inl (strLtChars_trans a.data b.data c.data h1 h2))
      · have hd : b.data = c.data := eq_of_beq h2
        exact (Bool.or_eq_true _ _).mpr (Or.inl (hd ▸ h1))
    · have hd : a.data = b.data := eq_of_beq h1
      rcases (Bool.or_eq_true _ _).mp hbc with h2 | h2
      · exact (Bool.or_eq_true _ _).mpr (Or.inl (hd ▸ h2))
      · have hd2 : b.data = c.data := eq_of_beq h2
        exact (Bool.or_eq_true _ _).mpr (Or.inr (by rw [hd, hd2]; exact beq_self_eq_true _))⟩

instance : IsAntisymm String strLeR :=
  ⟨by
    intro a b hab hba
    rcases (Bool.or_eq_true _ _).mp hab with h1 | h1
    · rcases (Bool.or_eq_true _ _).mp hba with h2 | h2
      · exact (strLtChars_asymm a.data b.data h1 h2).elim
      · exact (stringDataEq (eq_of_beq h2)).symm
    · exact stringDataEq (eq_of_beq h1)⟩

instance : IsTotal String strLeR :=
  ⟨by
    intro a b
    rcases strLtChars_total a.data b.data with h | h | h
    · exact Or.inl ((Bool.or_eq_true _ _).mpr (Or.inr (by rw [h]; exact beq_self_eq_true _)))
    · exact Or.inl ((Bool.or_eq_true _ _).mpr (Or.inl h))
    · exact Or.inr ((Bool.or_eq_true _ _).mpr (Or.inl h))⟩

/-! Lemmas about the insertion-ordered dict model. -/

theorem dictGet_insert_self : ∀ (d : List (String × String)) (k v : String),
    dictGet (dictInsert d k v) k = v
  | [], k, v => by simp [dictInsert, dictGet, List.find?]
  | (k', v') :: rest, k, v => by
    by_cases h : k' = k
    · simp [dictInsert, h, dictGet, List.find?]
    · simp only [dictInsert, if_neg h, dictGet, List.find?]
      have hb : (k' == k) = false := beq_eq_false_iff_ne.mpr h
      rw [hb]
      exact dictGet_insert_self rest k v

theorem dictGet_insert_ne : ∀ (d : List (String × String)) (k v k' : String),
    k' ≠ k → dictGet (dictInsert d k v) k' = dictGet d k'
  | [], k, v, k', h => by
    have hb : (k == k') = false := beq_eq_false_iff_ne.mpr (Ne.symm h)
    simp [dictInsert, dictGet, List.find?, hb]
  | (k0, v0) :: rest, k, v, k', h => by
    by_cases h0 : k0 = k
    · have hb : (k == k') = false := beq_eq_false_iff_ne.mpr (Ne.symm h)
      have hb0 : (k0 == k') = false := beq_eq_false_iff_ne.mpr (by rw [h0]; exact Ne.symm h)
      simp [dictInsert, h0, dictGet, List.find?, hb, hb0]
    · simp only [dictInsert, if_neg h0, dictGet, List.find?]
      by_cases he : k0 = k'
      · rw [show (k0 == k') = true from beq_iff_eq.mpr he]
      · rw [beq_eq_false_iff_ne.mpr he]
        exact dictGet_insert_ne rest k v k' h

theorem mem_dictInsert : ∀ (d : List (String × String)) (k v : String)
    (kv : String × String), kv ∈ dictInsert d k v → kv = (k, v) ∨ kv ∈ d
  | [], k, v, kv, h => by simpa [dictInsert] using h
  | (k0, v0) :: rest, k, v, kv, h => by
    by_cases h0 : k0 = k
    · simp only [dictInsert, if_pos h0] at h
      rcases List.mem_cons.mp h with h | h
      · exact Or.inl h
      · exact Or.inr (List.mem_cons_of_mem _ h)
    · simp only [dictInsert, if_neg h0] at h
      rcases List.mem_cons.mp h with h | h
      · exact Or.inr (h ▸ List.mem_cons_self _ _)
      · rcases mem_dictInsert rest k v kv h with h | h
        · exact Or.inl h
        · exact Or.inr (List.mem_cons_of_mem _ h)

theorem dictGet_of_not_mem_keys : ∀ (d : List (String × String)) (k : String),
    k ∉ d.map Prod.fst → dictGet d k = ""
  | [], _, _ => rfl
  | (k0, v0) :: rest, k, h => by
    have h0 : k0 ≠ k := by
      intro he
      exact h (by simp [he])
    have hrest : k ∉ rest.map Prod.fst := by
      intro hm
      exact h (by simp [hm])
    simp only [dictGet, List.find?, beq_eq_false_iff_ne.mpr h0]
    exact dictGet_of_not_mem_keys rest k hrest

theorem dictGet_update_not_mem : ∀ (other d : List (String × String)) (k : String),
    k ∉ other.map Prod.fst → dictGet (dictUpdate d other) k = dictGet d k
  | [], _, _, _ => rfl
  | (k1, v1) :: rest, d, k, h => by
    have h1 : k ≠ k1 := by
      intro he
      exact h (by simp [he])
    have hrest : k ∉ rest.map Prod.fst := by
      intro hm
      exact h (by simp [hm])
    show dictGet (dictUpdate (dictInsert d k1 v1) rest) k = dictGet d k
    rw [dictGet_update_not_mem rest (dictInsert d k1 v1) k hrest]
    exact dictGet_insert_ne d k1 v1 k h1

theorem keys_dictInsert : ∀ (d : List (String × String)) (k v : String),
    (dictInsert d k v).map Prod.fst =
      if k ∈ d.map Prod.fst then d.map Prod.fst else d.map Prod.fst ++ [k]
  | [], k, v => by simp [dictInsert]
  | (k0, v0) :: rest, k, v => by
    by_cases h0 : k0 = k
    · simp [dictInsert, h0]
    · simp only [dictInsert, if_neg h0, List.map_cons]
      rw [keys_dictInsert rest k v]
      by_cases hm : k ∈ rest.map Prod.fst
      · simp [hm, h0]
      · have hne : ¬(k = k0 ∨ k ∈ rest.map Prod.fst) := by
          rintro (he | hmem)
          · exact h0 he.symm
          · exact hm hmem
        simp only [if_neg hm, List.mem_cons, if_neg hne]
        simp

/-! Evaluation facts about the tag names the two HTMLParser subclasses
compare against. -/

theorem pyLower_td : pyLower "td" = "td" := by decide

theorem pyLower_tr : pyLower "tr" = "tr" := by decide

theorem pyLower_h1 : pyLower "h1" = "h1" := by decide

theorem pyLower_table : pyLower "table" = "table" := by decide

theorem pyLower_tr_ne_td : ¬pyLower "tr" = "td" := by decide

theorem pyLower_table_ne_td : ¬pyLower "table" = "td" := by decide

theorem pyLower_table_ne_tr : ¬pyLower "table" = "tr" := by decide

/-! The streaming table parser on flat tables (claim C3). -/

theorem tableStep_flatCell (st : TableState) (s : String) :
    (flatCell s).foldl tableStep st =
      { in_td := false, current_row := st.current_row ++ [s], data := st.data } := by
  simp only [flatCell, List.foldl_cons, List.foldl_nil, tableStep, pyLower_td]
  simp

theorem foldl_flatCells : ∀ (cells : List String) (row : List String)
    (d : List (String × String)),
    ((cells.map flatCell).flatten).foldl tableStep ⟨false, row, d⟩ =
      ⟨false, row ++ cells, d⟩
  | [], row, d => by simp
  | s :: rest, row, d => by
    simp only [List.map_cons, List.flatten_cons, List.foldl_append]
    rw [tableStep_flatCell ⟨false, row, d⟩ s]
    rw [foldl_flatCells rest (row ++ [s]) d]
    simp

theorem tableStep_flushRow (st : TableState) :
    tableStep st (.endTag "tr") =
      { in_td := st.in_td, current_row := [], data := specRowStep st.data st.current_row } := by
  simp only [tableStep, pyLower_tr, specRowStep]
  rcases st with ⟨b, row, d⟩
  rcases row with _ | ⟨c0, _ | ⟨c1, _ | ⟨c2, cs⟩⟩⟩ <;> simp

theorem foldl_flatRow (cells : List String) (d : List (String × String)) :
    (flatRow cells).foldl tableStep ⟨false, [], d⟩ = ⟨false, [], specRowStep d cells⟩ := by
  simp only [flatRow, List.foldl_cons, List.foldl_append]
  have h1 : tableStep ⟨false, [], d⟩ (.startTag "tr") = ⟨false, [], d⟩ := by
    simp [tableStep, pyLower_tr_ne_td]
  rw [h1, foldl_flatCells cells [] d]
  simp only [List.foldl_cons, List.foldl_nil]
  rw [tableStep_flushRow ⟨false, [] ++ cells, d⟩]
  simp

theorem foldl_flatTable : ∀ (rows : List (List String)) (d : List (String × String)),
    ((rows.map flatRow).flatten).foldl tableStep ⟨false, [], d⟩ =
      ⟨false, [], rows.foldl specRowStep d⟩
  | [], d => by simp
  | r :: rest, d => by
    simp only [List.map_cons, List.flatten_cons, List.foldl_append]
    rw [foldl_flatRow r d, foldl_flatTable rest (specRowStep d r)]
    simp

theorem tableRun_flatTable (rows : List (List String)) :
    tableRun (flatTable rows) = rows.foldl specRowStep [] := by
  simp only [tableRun, flatTable, List.foldl_cons, List.foldl_append]
  have h1 : tableStep ⟨false, [], []⟩ (.startTag "table") = ⟨false, [], []⟩ := by
    simp [tableStep, pyLower_table_ne_td]
  have h2 : tableStep ⟨false, [], rows.foldl specRowStep []⟩ (.endTag "table")
      = ⟨false, [], rows.foldl specRowStep []⟩ := by
    simp [tableStep, pyLower_table_ne_td, pyLower_table_ne_tr]
  rw [h1, foldl_flatTable rows []]
  simp only [List.foldl_cons, List.foldl_nil]
  rw [h2]

/-! The empty-key invariant of both table extractors (claim C3). -/

theorem inv_tableStep : ∀ (st : TableState) (e : HtmlEvent),
    (∀ kv ∈ st.data, kv.1 ≠ "") → ∀ kv ∈ (tableStep st e).data, kv.1 ≠ ""
  | ⟨b, row, d⟩, .startTag tag, h => by
    simp only [tableStep]
    split <;> simpa using h
  | ⟨b, row, d⟩, .chunk s, h => by
    simp only [tableStep]
    split <;> simpa using h
  | ⟨b, row, d⟩, .endTag tag, h => by
    by_cases h1 : pyLower tag = "td"
    · simpa [tableStep, h1] using h
    · by_cases h2 : pyLower tag = "tr"
      · rcases row with _ | ⟨c0, _ | ⟨c1, _ | ⟨c2, cs⟩⟩⟩
        · simpa [tableStep, h1, h2] using h
        · simpa [tableStep, h1, h2] using h
        · simp only [tableStep, if_neg h1, if_pos h2]
          by_cases hk : pyStrip c0 = ""
          · simpa [hk] using h
          · simp only [if_neg hk]
            intro kv hkv
            rcases mem_dictInsert d (pyStrip c0) (pyStrip c1) kv hkv with he | hm
            · rw [he]
              exact hk
            · exact h kv hm
        · simpa [tableStep, h1, h2] using h
      · simpa [tableStep, h1, h2] using h

theorem inv_tableFold : ∀ (evs : List HtmlEvent) (st : TableState),
    (∀ kv ∈ st.data, kv.1 ≠ "") → ∀ kv ∈ (evs.foldl tableStep st).data, kv.1 ≠ ""
  | [], _, h => h
  | e :: rest, st, h =>
    inv_tableFold rest (tableStep st e) (inv_tableStep st e h)

theorem tableRun_keys_ne_empty (evs : List HtmlEvent) :
    ∀ kv ∈ tableRun evs, kv.1 ≠ "" :=
  inv_tableFold evs ⟨false, [], []⟩ (by simp)

theorem inv_strictRowStep (d : List (String × String)) (row : XNode)
    (h : ∀ kv ∈ d, kv.1 ≠ "") :
    ∀ kv ∈ strictRowStep d row, kv.1 ≠ "" := by
  simp only [strictRowStep]
  generalize findallDesc "td" row = cells
  rcases cells with _ | ⟨c0, _ | ⟨c1, _ | ⟨c2, cs⟩⟩⟩
  · exact h
  · exact h
  · by_cases hk : pyStrip (c0.textOf.getD "") = ""
    · simpa [hk] using h
    · simp only [if_neg hk]
      intro kv hkv
      rcases mem_dictInsert d _ _ kv hkv with he | hm
      · rw [he]
        exact hk
      · exact h kv hm
  · exact h

theorem inv_strictFold : ∀ (rows : List XNode) (d : List (String × String)),
    (∀ kv ∈ d, kv.1 ≠ "") → ∀ kv ∈ rows.foldl strictRowStep d, kv.1 ≠ ""
  | [], _, h => h
  | row :: rest, d, h =>
    inv_strictFold rest (strictRowStep d row) (inv_strictRowStep d row h)

theorem strict_keys_ne_empty (html : Option String) (parsed : Option XNode) :
    ∀ kv ∈ KmlToCsvPy.parse_html_description html parsed, kv.1 ≠ "" := by
  rcases html with _ | s
  · simp [KmlToCsvPy.parse_html_description]
  · by_cases hs : s = ""
    · simp [KmlToCsvPy.parse_html_description, hs]
    · rcases parsed with _ | root
      · simp [KmlToCsvPy.parse_html_description, hs]
      · simp only [KmlToCsvPy.parse_html_description, if_neg hs]
        exact inv_strictFold _ [] (by simp)

/-! The H1 parser characterization (claim C4). -/

theorem h1Fold_locked : ∀ (evs : List HtmlEvent) (b : Bool) (t : String), t ≠ "" →
    (evs.foldl h1Step ⟨b, some t⟩).text = some t
  | [], _, _, _ => rfl
  | e :: rest, b, t, ht => by
    cases e with
    | startTag tag =>
      simp only [List.foldl_cons, h1Step]
      split
      · exact h1Fold_locked rest true t ht
      · exact h1Fold_locked rest b t ht
    | endTag tag =>
      simp only [List.foldl_cons, h1Step]
      split
      · exact h1Fold_locked rest false t ht
      · exact h1Fold_locked rest b t ht
    | chunk s =>
      have hf : pyFalsyStr (some t) = false := by simp [pyFalsyStr, ht]
      simp only [List.foldl_cons, h1Step, hf, Bool.and_false, Bool.false_eq_true,
        if_false]
      exact h1Fold_locked rest b t ht

theorem h1Fold_falsy : ∀ (evs : List HtmlEvent) (b : Bool) (txt : Option String),
    pyFalsyStr txt = true →
    (evs.foldl h1Step ⟨b, txt⟩).text =
      (match (h1Chunks b evs).find? (fun s => !(pyStrip s == "")) with
       | some s => some (pyStrip s)
       | none => if (h1Chunks b evs).isEmpty then txt else some "")
  | [], b, txt, h => by simp [h1Chunks]
  | .startTag tag :: rest, b, txt, h => by
    by_cases hc : pyLower tag = "h1"
    · simp only [List.foldl_cons, h1Step, h1Chunks, if_pos hc]
      exact h1Fold_falsy rest true txt h
    · simp only [List.foldl_cons, h1Step, h1Chunks, if_neg hc]
      exact h1Fold_falsy rest b txt h
  | .endTag tag :: rest, b, txt, h => by
    by_cases hc : pyLower tag = "h1"
    · simp only [List.foldl_cons, h1Step, h1Chunks, if_pos hc]
      exact h1Fold_falsy rest false txt h
    · simp only [List.foldl_cons, h1Step, h1Chunks, if_neg hc]
      exact h1Fold_falsy rest b txt h
  | .chunk s :: rest, b, txt, h => by
    cases b with
    | false =>
      have hstep : h1Step ⟨false, txt⟩ (.chunk s) = ⟨false, txt⟩ := by
        simp [h1Step]
      have hchunks : h1Chunks false (.chunk s :: rest) = h1Chunks false rest := by
        simp [h1Chunks]
      rw [List.foldl_cons, hstep, hchunks]
      exact h1Fold_falsy rest false txt h
    | true =>
      have hstep : h1Step ⟨true, txt⟩ (.chunk s) = ⟨true, some (pyStrip s)⟩ := by
        simp [h1Step, h]
      have hchunks : h1Chunks true (.chunk s :: rest) = s :: h1Chunks true rest := by
        simp [h1Chunks]
      rw [List.foldl_cons, hstep, hchunks]
      by_cases hs : pyStrip s = ""
      · have hfs : pyFalsyStr (some (pyStrip s)) = true := by simp [pyFalsyStr, hs]
        rw [h1Fold_falsy rest true (some (pyStrip s)) hfs]
        have hp : (!(pyStrip s == "")) = false := by simp [hs]
        simp only [List.find?, hp]
        cases hf : (h1Chunks true rest).find? (fun x => !(pyStrip x == "")) with
        | some w => simp [hf]
        | none =>
          simp only [hf]
          by_cases he : (h1Chunks true rest).isEmpty <;> simp [he, hs]
      · rw [h1Fold_locked rest true (pyStrip s) hs]
        have hp : (!(pyStrip s == "")) = true := by simp [hs]
        simp only [List.find?, hp]

theorem h1Run_eq_h1Spec (evs : List HtmlEvent) : h1Run evs = h1Spec evs := by
  have h := h1Fold_falsy evs false none (by simp [pyFalsyStr])
  simp only [h1Run, h1Spec]
  rw [h]

/-! Lemmas about the form grouping fold (claim C6). -/

theorem formNameOf_ne_empty (pm : Placemark) : KmlParserPy.formNameOf pm ≠ "" := by
  simp only [KmlParserPy.formNameOf]
  cases KmlParserPy.get_form_name (some (descHtmlEvents pm)) with
  | none => simp [KmlParserPy.NO_FORM]
  | some s =>
    show (if s = "" then KmlParserPy.NO_FORM else s) ≠ ""
    by_cases hs : s = ""
    · simp [hs, KmlParserPy.NO_FORM]
    · rw [if_neg hs]
      exact hs

theorem formsLookup_cons_self (k' : String) (l : List Placemark)
    (tail : List (String × List Placemark)) :
    KmlParserPy.formsLookup ((k', l) :: tail) k' = l := by
  simp [KmlParserPy.formsLookup, List.find?]

theorem formsLookup_cons_ne (k0 k' : String) (l : List Placemark)
    (tail : List (String × List Placemark)) (h : ¬k0 = k') :
    KmlParserPy.formsLookup ((k0, l) :: tail) k' = KmlParserPy.formsLookup tail k' := by
  have hb : (k0 == k') = false := beq_eq_false_iff_ne.mpr h
  simp [KmlParserPy.formsLookup, List.find?, hb]

theorem formsLookup_addToForm : ∀ (forms : List (String × List Placemark))
    (k : String) (pm : Placemark) (k' : String),
    KmlParserPy.formsLookup (KmlParserPy.addToForm forms k pm) k' =
      if k' = k then KmlParserPy.formsLookup forms k' ++ [pm]
      else KmlParserPy.formsLookup forms k'
  | [], k, pm, k' => by
    by_cases he : k' = k
    · rw [he, if_pos rfl]
      show KmlParserPy.formsLookup [(k, [pm])] k = KmlParserPy.formsLookup [] k ++ [pm]
      rw [formsLookup_cons_self]
      rfl
    · rw [if_neg he]
      show KmlParserPy.formsLookup [(k, [pm])] k' = KmlParserPy.formsLookup [] k'
      rw [formsLookup_cons_ne k k' [pm] [] (fun hx => he hx.symm)]
  | (k0, l) :: rest, k, pm, k' => by
    by_cases h0 : k0 = k
    · subst h0
      have h1 : KmlParserPy.addToForm ((k0, l) :: rest) k0 pm
          = (k0, l ++ [pm]) :: rest := by
        simp [KmlParserPy.addToForm]
      rw [h1]
      by_cases he : k' = k0
      · rw [he, if_pos rfl, formsLookup_cons_self, formsLookup_cons_self]
      · rw [if_neg he, formsLookup_cons_ne _ _ _ _ (fun hx => he hx.symm),
          formsLookup_cons_ne _ _ _ _ (fun hx => he hx.symm)]
    · have h1 : KmlParserPy.addToForm ((k0, l) :: rest) k pm
          = (k0, l) :: KmlParserPy.addToForm rest k pm := by
        simp [KmlParserPy.addToForm, h0]
      rw [h1]
      by_cases he : k' = k0
      · rw [he, formsLookup_cons_self, formsLookup_cons_self, if_neg h0]
      · rw [formsLookup_cons_ne _ _ _ _ (fun hx => he hx.symm),
          formsLookup_cons_ne _ _ _ _ (fun hx => he hx.symm)]
        exact formsLookup_addToForm rest k pm k'

theorem groupStep_eq (forms : List (String × List Placemark)) (pm : Placemark) :
    KmlParserPy.groupStep forms pm =
      KmlParserPy.addToForm forms (KmlParserPy.formNameOf pm) pm := by
  simp [KmlParserPy.groupStep, formNameOf_ne_empty pm]

theorem group_foldl_lookup : ∀ (pms : List Placemark)
    (acc : List (String × List Placemark)) (k : String),
    KmlParserPy.formsLookup (pms.foldl KmlParserPy.groupStep acc) k =
      KmlParserPy.formsLookup acc k ++
        pms.filter (fun pm => KmlParserPy.formNameOf pm == k)
  | [], acc, k => by simp
  | pm :: rest, acc, k => by
    simp only [List.foldl_cons, List.filter_cons]
    rw [group_foldl_lookup rest (KmlParserPy.groupStep acc pm) k]
    rw [groupStep_eq acc pm, formsLookup_addToForm acc (KmlParserPy.formNameOf pm) pm k]
    by_cases he : k = KmlParserPy.formNameOf pm
    · rw [if_pos he, if_pos (beq_iff_eq.mpr he.symm)]
      simp
    · rw [if_neg he, if_neg (by simpa using fun hx => he hx.symm)]

theorem sumLens_addToForm : ∀ (forms : List (String × List Placemark))
    (k : String) (pm : Placemark),
    ((KmlParserPy.addToForm forms k pm).map (fun g => g.2.length)).sum =
      (forms.map (fun g => g.2.length)).sum + 1
  | [], k, pm => by simp [KmlParserPy.addToForm]
  | (k0, l) :: rest, k, pm => by
    by_cases h0 : k0 = k
    · simp [KmlParserPy.addToForm, h0]
      omega
    · simp only [KmlParserPy.addToForm, if_neg h0, List.map_cons, List.sum_cons]
      rw [sumLens_addToForm rest k pm]
      omega

theorem sumLens_group_foldl : ∀ (pms : List Placemark)
    (acc : List (String × List Placemark)),
    ((pms.foldl KmlParserPy.groupStep acc).map (fun g => g.2.length)).sum =
      (acc.map (fun g => g.2.length)).sum + pms.length
  | [], acc => by simp
  | pm :: rest, acc => by
    simp only [List.foldl_cons, List.length_cons]
    rw [sumLens_group_foldl rest (KmlParserPy.groupStep acc pm)]
    rw [groupStep_eq acc pm, sumLens_addToForm acc (KmlParserPy.formNameOf pm) pm]
    omega

/-! The archive loader characterization (claim C7). -/

theorem loadKml_eq_find {α : Type} : ∀ (entries : List (String × α)),
    loadKml entries =
      match entries.find? (fun e => pyEndsWith e.1 ".kml") with
      | none => PyResult.error "No .kml file found"
      | some e => PyResult.ok e.2
  | [] => rfl
  | (nm, a) :: tl => by
    have hname : ((nm, a) :: tl).map Prod.fst = nm :: tl.map Prod.fst := rfl
    by_cases h : pyEndsWith nm ".kml" = true
    · have hne : ¬nm = "" := by
        intro he
        rw [he] at h
        exact absurd h (by decide)
      simp [loadKml, hname, List.find?, h, hne]
    · have hb : pyEndsWith nm ".kml" = false := by simpa using h
      simp only [loadKml, hname, List.find?, hb]
      cases hn : (tl.map Prod.fst).find? (fun n => pyEndsWith n ".kml") with
      | none =>
        rw [← loadKml_eq_find tl]
        simp [loadKml, hn]
      | some n =>
        have hnkml : pyEndsWith n ".kml" = true := by
          have h2 := List.find?_some hn
          simpa using h2
        have hbeq : (nm == n) = false := by
          refine beq_eq_false_iff_ne.mpr ?_
          intro he
          rw [he] at hb
          rw [hb] at hnkml
          exact Bool.false_ne_true hnkml
        rw [← loadKml_eq_find tl]
        simp only [loadKml, hn]
        simp [List.find?, hbeq]

/-! Claim theorems. -/

/-- C2 counterexample: the claim states that field extraction assigns the
first up to three comma-split tokens positionally even when there are more
than three tokens, so on the coordinate text 1.0,2.0,3.0,4.0 the longitude
would have to be 1.0.  kml_parser.extract_placemark_data instead leaves all
three slots empty on a four-token split, refuting the claim as stated. -/
theorem C2_counterexample :
    (KmlParserPy.extract_placemark_data pmFourTokens).longitude = ""
    ∧ (KmlParserPy.extract_placemark_data pmFourTokens).latitude = ""
    ∧ (KmlParserPy.extract_placemark_data pmFourTokens).altitude = ""
    ∧ pySplitComma (pyStrip "1.0,2.0,3.0,4.0") = ["1.0", "2.0", "3.0", "4.0"]
    ∧ ¬(KmlParserPy.extract_placemark_data pmFourTokens).longitude = "1.0" := by
  refine ⟨by decide, by decide, by decide, by decide, by decide⟩

/-- C2 (amended): coordinate extraction splits the trimmed coordinate text on
commas; the CSV exporter (kml_to_csv lines 95-105) assigns the first up to
three tokens positionally for every token count, while
kml_parser.extract_placemark_data assigns them only when the split yields at
most three tokens and leaves all slots empty on more than three tokens;
unassigned slots are empty strings and no token count is an error, and the
four specification examples hold in both variants. -/
theorem C2_coordinate_splitting :
    (∀ coordEl : Option (Option String),
      KmlToCsvPy.coordFieldsCsv coordEl = firstThreeTokens (elTokens coordEl))
    ∧ (∀ coordEl : Option (Option String),
      KmlParserPy.coordTriple coordEl =
        if (elTokens coordEl).length ≤ 3 then firstThreeTokens (elTokens coordEl)
        else ("", "", ""))
    ∧ KmlParserPy.coordTriple (some (some "1.0,2.0,3.0")) = ("1.0", "2.0", "3.0")
    ∧ KmlParserPy.coordTriple (some (some "1.0,2.0")) = ("1.0", "2.0", "")
    ∧ KmlParserPy.coordTriple (some (some "1.0")) = ("1.0", "", "")
    ∧ KmlParserPy.coordTriple (some (some "")) = ("", "", "")
    ∧ KmlToCsvPy.coordFieldsCsv (some (some "1.0,2.0,3.0")) = ("1.0", "2.0", "3.0")
    ∧ KmlToCsvPy.coordFieldsCsv (some (some "1.0,2.0")) = ("1.0", "2.0", "")
    ∧ KmlToCsvPy.coordFieldsCsv (some (some "1.0")) = ("1.0", "", "")
    ∧ KmlToCsvPy.coordFieldsCsv (some (some "")) = ("", "", "") := by
  refine ⟨?_, ?_, by decide, by decide, by decide, by decide, by decide, by decide,
    by decide, by decide⟩
  · intro coordEl
    by_cases hs : elText coordEl = ""
    · simp [KmlToCsvPy.coordFieldsCsv, elTokens, hs, firstThreeTokens]
    · simp [KmlToCsvPy.coordFieldsCsv, elTokens, hs, firstThreeTokens]
  · intro coordEl
    rcases coordEl with _ | el
    · simp [KmlParserPy.coordTriple, elTokens, elText, firstThreeTokens]
    · rcases el with _ | t
      · simp [KmlParserPy.coordTriple, elTokens, elText, firstThreeTokens]
      · by_cases ht : t = ""
        · simp [KmlParserPy.coordTriple, elTokens, elText, ht, firstThreeTokens]
        · have hel : elText (some (some t)) = pyStrip t := by simp [elText, ht]
          by_cases hst : pyStrip t = ""
          · have hsp0 : pySplitComma "" = [""] := by decide
            simp [KmlParserPy.coordTriple, elTokens, hel, ht, hst, hsp0, firstThreeTokens]
          · rcases hsp : pySplitComma (pyStrip t) with _ | ⟨c0, _ | ⟨c1, _ | ⟨c2, _ | ⟨c3, tl⟩⟩⟩⟩
            · simp [KmlParserPy.coordTriple, elTokens, hel, ht, hst, hsp, firstThreeTokens]
            · simp [KmlParserPy.coordTriple, elTokens, hel, ht, hst, hsp, firstThreeTokens]
            · simp [KmlParserPy.coordTriple, elTokens, hel, ht, hst, hsp, firstThreeTokens]
            · simp [KmlParserPy.coordTriple, elTokens, hel, ht, hst, hsp, firstThreeTokens]
            · simp only [KmlParserPy.coordTriple, elTokens, hel, ht, if_neg ht,
                if_neg hst, hsp]
              have hlen : ¬(c0 :: c1 :: c2 :: c3 :: tl).length ≤ 3 := by
                simp only [List.length_cons]
                omega
              rw [if_neg hlen]
              simp

/-- C3 counterexample: the claim states a row is used only when it has
exactly two cells.  On the fragment with a single one-cell row whose cell
contains nested markup (two text chunks), the streaming TableHTMLParser
nevertheless records the entry a maps-to b, although the whole fragment
contains exactly one td start tag, refuting the claim as stated. -/
theorem C3_counterexample :
    tableRun ceOneCell = [("a", "b")]
    ∧ ceOneCell.countP (fun e => decide (e = HtmlEvent.startTag "td")) = 1 := by
  refine ⟨by decide, by decide⟩

/-- C3 (amended): the streaming table extractor flushes the td text chunks
accumulated in a row at each tr end tag and uses the row exactly when it
accumulated exactly two chunks, which for flat rows (every cell a single
text chunk) coincides with the two-cell rule: key and value are the stripped
first and second cell texts, rows whose key strips to empty are skipped, and
rows are folded left to right in document order.  In both the streaming and
the strict tree-based extractor the resulting mapping never contains an
empty-string key, and a later row with the same key overwrites the earlier
value while the key keeps its original position in the insertion order. -/
theorem C3_table_extraction :
    (∀ rows : List (List String), tableRun (flatTable rows) = rows.foldl specRowStep [])
    ∧ (∀ evs : List HtmlEvent, ∀ kv ∈ tableRun evs, kv.1 ≠ "")
    ∧ (∀ (html : Option String) (parsed : Option XNode),
        ∀ kv ∈ KmlToCsvPy.parse_html_description html parsed, kv.1 ≠ "")
    ∧ (∀ (d : List (String × String)) (k v : String), dictGet (dictInsert d k v) k = v)
    ∧ (∀ (d : List (String × String)) (k v k' : String), k' ≠ k →
        dictGet (dictInsert d k v) k' = dictGet d k')
    ∧ (∀ (d : List (String × String)) (k v : String),
        (dictInsert d k v).map Prod.fst =
          if k ∈ d.map Prod.fst then d.map Prod.fst else d.map Prod.fst ++ [k]) :=
  ⟨tableRun_flatTable, tableRun_keys_ne_empty, strict_keys_ne_empty,
    dictGet_insert_self, dictGet_insert_ne, keys_dictInsert⟩

/-- C3 witness: the amended theorem applied at concrete inputs — overwriting
the key A yields its new value, and the entry produced from the one-cell
fragment has a nonempty key. -/
theorem C3_witness :
    dictGet (dictInsert [("A", "1")] "A" "2") "A" = "2" ∧ ("a" : String) ≠ "" :=
  ⟨C3_table_extraction.2.2.2.1 [("A", "1")] "A" "2",
    C3_table_extraction.2.1 ceOneCell ("a", "b") (by decide)⟩

/-- C4 counterexample: the claim states that heading extraction returns the
trimmed text of the first h1 and ignores later headings.  On the fragment
<h1> </h1><h1>Second</h1> the first heading's text strips to the empty
string, and H1HTMLParser (whose guard is the falsy test `not self.text`)
returns Second from the LATER heading, refuting the claim as stated. -/
theorem C4_counterexample :
    h1Run ceTwoHeadings = some "Second" ∧ pyStrip " " = "" := by
  refine ⟨by decide, by decide⟩

/-- C4 (amended): heading extraction returns the stripped text of the first
text chunk occurring inside an h1 element whose strip is nonempty; chunks
whose strip is empty do not lock the result, so a whitespace-only first
heading lets a later heading's text win; when in-h1 chunks exist but all
strip to empty the result is the empty string, and when no chunk ever occurs
inside an h1 the result is absent (not an empty string).  In particular a
first heading with nonempty stripped text is returned and later headings are
ignored, and the specification example <h1>Survey</h1><p>x</p> yields
Survey. -/
theorem C4_heading_extraction :
    (∀ evs : List HtmlEvent, h1Run evs = h1Spec evs)
    ∧ (∀ (s : String) (rest : List HtmlEvent), pyStrip s ≠ "" →
        h1Run (.startTag "h1" :: .chunk s :: rest) = some (pyStrip s))
    ∧ h1Run [.startTag "h1", .chunk "Survey", .endTag "h1",
             .startTag "p", .chunk "x", .endTag "p"] = some "Survey"
    ∧ h1Run [] = none := by
  refine ⟨h1Run_eq_h1Spec, ?_, by decide, by decide⟩
  intro s rest hs
  have hstep1 : h1Step ⟨false, none⟩ (.startTag "h1") = ⟨true, none⟩ := by
    simp [h1Step, pyLower_h1]
  have hstep2 : h1Step ⟨true, none⟩ (.chunk s) = ⟨true, some (pyStrip s)⟩ := by
    simp [h1Step, pyFalsyStr]
  simp only [h1Run, List.foldl_cons, hstep1, hstep2]
  exact h1Fold_locked rest true (pyStrip s) hs

/-- C4 witness: the amended theorem applied at the chunk Survey with an
empty remainder of the stream. -/
theorem C4_witness :
    h1Run [HtmlEvent.startTag "h1", HtmlEvent.chunk "Survey"] = some (pyStrip "Survey") :=
  C4_heading_extraction.2.1 "Survey" [] (by decide)

/-- C5: malformed description HTML never propagates a parse error.  The
strict extractor of kml_to_csv returns the empty mapping whenever the
wrapped fragment fails to parse (for any nonempty input, in particular for a
stray-ampersand fragment); the streaming extractors are total functions of
the event stream, returning the empty mapping and an absent heading on the
stray-ampersand fragment, the empty mapping on an unclosed table fragment,
and the heading text on an unclosed h1 fragment, so a malformed placemark
never aborts processing of the rest. -/
theorem C5_malformed_html_recovery :
    (∀ s : String, s ≠ "" → KmlToCsvPy.parse_html_description (some s) none = [])
    ∧ tableRun [.chunk "a & b"] = []
    ∧ h1Run [.chunk "a & b"] = none
    ∧ tableRun [.startTag "table", .startTag "tr", .startTag "td", .chunk "K"] = []
    ∧ h1Run [.startTag "h1", .chunk "Survey"] = some "Survey" := by
  refine ⟨?_, by decide, by decide, by decide, by decide⟩
  intro s hs
  simp [KmlToCsvPy.parse_html_description, hs]

/-- C5 witness: the failure-default clause applied at the stray-ampersand
fragment, whose wrapped form raises ET.ParseError. -/
theorem C5_witness : KmlToCsvPy.parse_html_description (some "a & b") none = [] :=
  C5_malformed_html_recovery.1 "a & b" (by decide)

/-- C7: the archive loader scans the entry list and returns the content of
the first entry whose name ends in .kml (first match wins silently when
several exist), and fails with the missing-document error when no entry
name ends in .kml. -/
theorem C7_archive_loader {α : Type} (entries : List (String × α)) :
    loadKml entries =
      match entries.find? (fun e => pyEndsWith e.1 ".kml") with
      | none => PyResult.error "No .kml file found"
      | some e => PyResult.ok e.2 :=
  loadKml_eq_find entries

theorem firstDescHtml_parse_eq (pm : Placemark) (fdh : String)
    (h : KmlToCsvPy.firstDescHtml pm = .ok fdh) :
    KmlToCsvPy.parse_html_description (some fdh) pm.descTree
      = KmlToCsvPy.descDataStrict pm := by
  rcases hde : pm.descEl with _ | el
  · simp only [KmlToCsvPy.firstDescHtml, hde] at h
    cases h
    simp [KmlToCsvPy.descDataStrict, elText, hde]
  · rcases el with _ | t
    · simp only [KmlToCsvPy.firstDescHtml, hde] at h
      cases h
    · simp only [KmlToCsvPy.firstDescHtml, hde] at h
      cases h
      by_cases ht : t = ""
      · have hstrip : pyStrip "" = "" := by decide
        simp [KmlToCsvPy.descDataStrict, elText, hde, ht, hstrip]
      · simp [KmlToCsvPy.descDataStrict, elText, hde, ht]

/-- C1: for every chosen group that reaches export, the field list is the
four fixed columns followed by the keys of the first record's parsed
description data, in that record's insertion order; every record of the
group is rendered as one row under that fixed field list; each row has one
cell per field; a field outside the fixed columns that is absent from a
record's description data renders as an empty cell; and rendering depends
only on the field-list columns of a row dict, so keys outside the schema are
silently dropped. -/
theorem C1_export_schema (first : Placemark) (rest : List Placemark)
    (fieldnames : List String) (rows : List (List String))
    (h : KmlToCsvPy.exportGroup first rest = .ok (fieldnames, rows)) :
    fieldnames = KmlToCsvPy.fixedFieldnames
        ++ (KmlToCsvPy.descDataStrict first).map Prod.fst
    ∧ rows = (first :: rest).map
        (fun pm => KmlToCsvPy.renderRow fieldnames (KmlToCsvPy.placemarkRow pm))
    ∧ (∀ r ∈ rows, r.length = fieldnames.length)
    ∧ (∀ pm : Placemark, ∀ c ∈ fieldnames, c ∉ KmlToCsvPy.fixedFieldnames →
        c ∉ (KmlToCsvPy.descDataStrict pm).map Prod.fst →
        dictGet (KmlToCsvPy.placemarkRow pm) c = "")
    ∧ (∀ (fns : List String) (d₁ d₂ : List (String × String)),
        (∀ c ∈ fns, dictGet d₁ c = dictGet d₂ c) →
        KmlToCsvPy.renderRow fns d₁ = KmlToCsvPy.renderRow fns d₂) := by
  cases hfd : KmlToCsvPy.firstDescHtml first with
  | error m =>
    simp only [KmlToCsvPy.exportGroup, hfd] at h
    cases h
  | ok fdh =>
    have hparse := firstDescHtml_parse_eq first fdh hfd
    simp only [KmlToCsvPy.exportGroup, hfd, PyResult.ok.injEq, Prod.mk.injEq] at h
    obtain ⟨h1, h2⟩ := h
    subst h1
    subst h2
    refine ⟨by rw [hparse], rfl, ?_, ?_, ?_⟩
    · intro r hr
      obtain ⟨pm, _, rfl⟩ := List.mem_map.mp hr
      simp [KmlToCsvPy.renderRow]
    · intro pm c hc hcfix hcdd
      show dictGet (KmlToCsvPy.placemarkRow pm) c = ""
      simp only [KmlToCsvPy.placemarkRow]
      rw [dictGet_update_not_mem _ _ c hcdd]
      apply dictGet_of_not_mem_keys
      simpa [KmlToCsvPy.fixedFieldnames] using hcfix
    · intro fns d₁ d₂ hagree
      simp only [KmlToCsvPy.renderRow]
      exact List.map_congr_left hagree

/-- C1 witness: the schema equation of the export theorem applied to the
concrete singleton group of pmW, whose export succeeds with schema
Name, Longitude, Latitude, Altitude, A. -/
theorem C1_witness :
    (["Name", "Longitude", "Latitude", "Altitude", "A"] : List String)
      = KmlToCsvPy.fixedFieldnames ++ (KmlToCsvPy.descDataStrict pmW).map Prod.fst :=
  (C1_export_schema pmW [] ["Name", "Longitude", "Latitude", "Altitude", "A"]
    [["P1", "1.0", "2.0", "3.0", "1"]] (by decide)).1

/-- C6: form grouping assigns each placemark to exactly one group, the one
labelled by its form name: the group stored under any label k is exactly the
document-ordered sublist of placemarks whose form name is k (so membership in
one group excludes every other and source order is preserved); a placemark
whose heading extraction is absent or empty goes under the sentinel label;
and the group sizes always sum to the total placemark count (in particular
when every description carries a recognizable heading). -/
theorem C6_form_grouping (pms : List Placemark) :
    (∀ k : String,
      KmlParserPy.formsLookup (KmlParserPy.group_placemarks_by_form pms) k
        = pms.filter (fun pm => KmlParserPy.formNameOf pm == k))
    ∧ (∀ pm : Placemark,
        (KmlParserPy.get_form_name (some (descHtmlEvents pm)) = none ∨
         KmlParserPy.get_form_name (some (descHtmlEvents pm)) = some "") →
        KmlParserPy.formNameOf pm = KmlParserPy.NO_FORM)
    ∧ ((KmlParserPy.group_placemarks_by_form pms).map (fun g => g.2.length)).sum
        = pms.length := by
  refine ⟨?_, ?_, ?_⟩
  · intro k
    have h := group_foldl_lookup pms [] k
    have hnil : KmlParserPy.formsLookup [] k = [] := rfl
    rw [hnil, List.nil_append] at h
    exact h
  · intro pm hpm
    simp only [KmlParserPy.formNameOf]
    rcases hpm with h | h
    · rw [h]
    · rw [h]
      simp
  · have h := sumLens_group_foldl pms []
    simpa [KmlParserPy.group_placemarks_by_form] using h

/-- C6 witness: the grouping theorem applied to the one-element document of
the headless placemark — it lands in the sentinel group, which has size
one. -/
theorem C6_witness :
    (KmlParserPy.formsLookup (KmlParserPy.group_placemarks_by_form [pmHeadless])
      KmlParserPy.NO_FORM).length = 1
    ∧ KmlParserPy.formNameOf pmHeadless = KmlParserPy.NO_FORM := by
  refine ⟨?_, (C6_form_grouping []).2.1 pmHeadless (Or.inl (by decide))⟩
  rw [(C6_form_grouping [pmHeadless]).1 KmlParserPy.NO_FORM]
  decide

theorem menu_no_output (names : List String) :
    ∀ e ∈ KmlToCsvPy.Effect.consolePrint "Please choose a placemark name to process:"
        :: (names.map KmlToCsvPy.Effect.consolePrint ++ [KmlToCsvPy.Effect.promptInput]),
      KmlToCsvPy.outputEffect e = false := by
  intro e he
  rcases List.mem_cons.mp he with h | h
  · rw [h]
    rfl
  · rcases List.mem_append.mp h with h | h
    · obtain ⟨n, _, rfl⟩ := List.mem_map.mp h
      rfl
    · rcases List.mem_singleton.mp h with rfl
      rfl

/-- C8: an aborted run of kml_to_csv_interactive_multiple performs no output
effect at all, and a successful run opens the output destination only after
the complete header and row list are materialized: its trace is a prefix
without output effects followed immediately by the open and the single write
of the whole file content. -/
theorem C8_deferred_output_open (entries : List (String × List Placemark))
    (userInput : Option Int) :
    ((KmlToCsvPy.kml_to_csv_interactive_multiple entries userInput).1
        = KmlToCsvPy.RunOutcome.aborted →
      ∀ e ∈ (KmlToCsvPy.kml_to_csv_interactive_multiple entries userInput).2,
        KmlToCsvPy.outputEffect e = false)
    ∧ (∀ (fieldnames : List String) (rows : List (List String)),
        (KmlToCsvPy.kml_to_csv_interactive_multiple entries userInput).1
          = KmlToCsvPy.RunOutcome.wrote fieldnames rows →
        ∃ pre, (KmlToCsvPy.kml_to_csv_interactive_multiple entries userInput).2
            = pre ++ [KmlToCsvPy.Effect.openOutput,
                      KmlToCsvPy.Effect.writeOutput (fieldnames :: rows),
                      KmlToCsvPy.Effect.consolePrint "Conversion successful."]
          ∧ ∀ e ∈ pre, KmlToCsvPy.outputEffect e = false) := by
  simp only [KmlToCsvPy.kml_to_csv_interactive_multiple]
  split
  · refine ⟨?_, ?_⟩
    · intro _ e he
      rcases List.mem_singleton.mp he with rfl
      rfl
    · intro fns rows h
      exact KmlToCsvPy.RunOutcome.noConfusion h
  · split
    · refine ⟨?_, ?_⟩
      · intro _ e he
        rcases List.mem_singleton.mp he with rfl
        rfl
      · intro fns rows h
        exact KmlToCsvPy.RunOutcome.noConfusion h
    · split
      · refine ⟨?_, ?_⟩
        · intro _ e he
          rcases List.mem_append.mp he with h | h
          · exact menu_no_output _ e h
          · rcases List.mem_singleton.mp h with rfl
            rfl
        · intro fns rows h
          exact KmlToCsvPy.RunOutcome.noConfusion h
      · split
        · split
          · refine ⟨?_, ?_⟩
            · intro _ e he
              rcases List.mem_append.mp he with h | h
              · exact menu_no_output _ e h
              · rcases List.mem_singleton.mp h with rfl
                rfl
            · intro fns rows h
              exact KmlToCsvPy.RunOutcome.noConfusion h
          · split
            · refine ⟨?_, ?_⟩
              · intro _ e he
                rcases List.mem_append.mp he with h | h
                · exact menu_no_output _ e h
                · rcases List.mem_singleton.mp h with rfl
                  rfl
              · intro fns rows h
                exact KmlToCsvPy.RunOutcome.noConfusion h
            · refine ⟨?_, ?_⟩
              · intro h
                exact KmlToCsvPy.RunOutcome.noConfusion h
              · intro fns rows h
                injection h with ha hb
                subst ha
                subst hb
                exact ⟨_, rfl, menu_no_output _⟩
        · refine ⟨?_, ?_⟩
          · intro _ e he
            rcases List.mem_append.mp he with h | h
            · exact menu_no_output _ e h
            · rcases List.mem_singleton.mp h with rfl
              rfl
          · intro fns rows h
            exact KmlToCsvPy.RunOutcome.noConfusion h

/-- C8 witness: the success clause of the deferred-open theorem applied
to the concrete archive archW with console input 1. -/
theorem C8_witness :
    ∃ pre, (KmlToCsvPy.kml_to_csv_interactive_multiple archW (some 1)).2
        = pre ++ [KmlToCsvPy.Effect.openOutput,
                  KmlToCsvPy.Effect.writeOutput
                    (["Name", "Longitude", "Latitude", "Altitude", "A"]
                      :: [["P1", "1.0", "2.0", "3.0", "1"]]),
                  KmlToCsvPy.Effect.consolePrint "Conversion successful."]
      ∧ ∀ e ∈ pre, KmlToCsvPy.outputEffect e = false :=
  (C8_deferred_output_open archW (some 1)).2
    ["Name", "Longitude", "Latitude", "Altitude", "A"]
    [["P1", "1.0", "2.0", "3.0", "1"]] (by decide)

theorem pySorted_dedup_perm {l₁ l₂ : List String} (h : l₁.Perm l₂) :
    pySorted l₁.dedup = pySorted l₂.dedup := by
  have hperm : (pySorted l₁.dedup).Perm (pySorted l₂.dedup) :=
    ((List.perm_insertionSort strLeR l₁.dedup).trans h.dedup).trans
      (List.perm_insertionSort strLeR l₂.dedup).symm
  exact List.eq_of_perm_of_sorted hperm
    (List.sorted_insertionSort strLeR l₁.dedup)
    (List.sorted_insertionSort strLeR l₂.dedup)

/-- C9: the pipeline is deterministic — equal archive contents and equal
user selections produce equal run outcomes and traces (byte-identical
output), the grouping result is a function of the archive contents alone,
and the sorted-deduplicated name menu is invariant under permutation of the
collected names, so the iteration order of Python's intermediate set cannot
influence the result. -/
theorem C9_pipeline_deterministic (e₁ e₂ : List (String × List Placemark))
    (u₁ u₂ : Option Int) (he : e₁ = e₂) (hu : u₁ = u₂) :
    KmlToCsvPy.kml_to_csv_interactive_multiple e₁ u₁
      = KmlToCsvPy.kml_to_csv_interactive_multiple e₂ u₂
    ∧ KmlParserPy.group_placemarks_by_form_archive e₁
      = KmlParserPy.group_placemarks_by_form_archive e₂
    ∧ (∀ l₁ l₂ : List String, l₁.Perm l₂ → pySorted l₁.dedup = pySorted l₂.dedup) := by
  subst he
  subst hu
  exact ⟨rfl, rfl, fun l₁ l₂ h => pySorted_dedup_perm h⟩

/-- C9 witness: the determinism theorem applied to the concrete archive and
to a two-element permutation of collected names. -/
theorem C9_witness :
    KmlToCsvPy.kml_to_csv_interactive_multiple archW (some 1)
      = KmlToCsvPy.kml_to_csv_interactive_multiple archW (some 1)
    ∧ pySorted (["b", "a"] : List String).dedup = pySorted (["a", "b"] : List String).dedup := by
  have h := C9_pipeline_deterministic archW archW (some 1) (some 1) rfl rfl
  exact ⟨h.1, h.2.2 ["b", "a"] ["a", "b"] (by decide)⟩

/-- C10: parse_html_description and get_form_name are total on the edge
inputs of the public interface: a None argument and the empty string yield
the empty mapping (strict and streaming table extraction) and an absent
heading, and get_form_name always returns either a string or absent. -/
theorem C10_totality :
    (∀ parsed : Option XNode, KmlToCsvPy.parse_html_description none parsed = [])
    ∧ (∀ parsed : Option XNode, KmlToCsvPy.parse_html_description (some "") parsed = [])
    ∧ KmlParserPy.parse_html_description none = []
    ∧ KmlParserPy.parse_html_description (some []) = []
    ∧ KmlParserPy.get_form_name none = none
    ∧ KmlParserPy.get_form_name (some []) = none
    ∧ (∀ html : Option (List HtmlEvent),
        KmlParserPy.get_form_name html = none
        ∨ ∃ s, KmlParserPy.get_form_name html = some s) := by
  refine ⟨fun _ => rfl, fun _ => rfl, rfl, rfl, rfl, rfl, ?_⟩
  intro html
  cases h : KmlParserPy.get_form_name html with
  | none => exact Or.inl rfl
  | some s => exact Or.inr ⟨s, rfl⟩
